import Mathlib

/-!
Verification development for the task-automation utility
(`utilities/task_automator.py`): `backup_directory`, `clean_directory`
and `organize_files`, together with the shell-glob matching
(`glob.fnmatch.fnmatch`, `shutil.ignore_patterns`) and path arithmetic
(`os.path.relpath`, `pathlib` suffix/stem) they rely on.

Conventions of the shallow embedding:
- A resolved absolute path is a `List String` of its segments
  (so `/src/sub/c.txt` is `["src", "sub", "c.txt"]`); an archive-relative
  path is likewise a segment list.
- A directory tree (`os.walk` input) is the mutual inductive
  `FSTree`/`DirList`; files are identified by name, which is all the
  walking/exclusion logic inspects.
- Modification times and the "now" captured by `time.time()` are exact
  rationals (seconds); file sizes are naturals (bytes).
- Fallible operations are split into a `*_core` returning `Except`
  (the body of the Python `try:` block) and the public function that
  wraps it in the `except Exception` handler, returning the sentinel.
-/

namespace TaskAutomator

/-! ### Shell-glob matching (`glob.fnmatch.fnmatch`)

The Python code matches exclusion patterns with `fnmatch`, whose pattern
language has `*` (any run of characters, including separators), `?`
(any single character), and `[...]` / `[!...]` character classes with
ranges; an unterminated `[` is a literal.  Patterns are compiled to a
token list and matched; `*` is matched by trying every split point. -/

inductive GTok where
  | star : GTok
  | anyc : GTok
  | lit : Char → GTok
  | cls : Bool → List (Char × Char) → GTok

/-- Character-class body to ranges: `a-b` is a range, a lone character
is the degenerate range; a trailing `-` is literal. -/
def toRanges : List Char → List (Char × Char)
  | [] => []
  | a :: '-' :: b :: rest => (a, b) :: toRanges rest
  | a :: rest => (a, a) :: toRanges rest

/-- Parse the body of a `[...]` class (after the opening bracket):
optional leading `!` negates; a `]` directly after the opening (or the
`!`) is a literal member; the class ends at the next `]`.  Returns
`none` when there is no closing `]` (then `[` is a literal). -/
def parseCls (cs : List Char) : Option (Bool × List (Char × Char) × List Char) :=
  let p := match cs with
    | '!' :: r => (true, r)
    | _ => (false, cs)
  match p.2 with
  | [] => none
  | c :: rest =>
    match rest.dropWhile (fun d => d ≠ ']') with
    | [] => none
    | _ :: r => some (p.1, toRanges (c :: rest.takeWhile (fun d => d ≠ ']')), r)

/-- Tokenizer worker; the fuel is the length of the input, which every
step strictly decreases, so it never runs out. -/
def tokenizeAux : Nat → List Char → List GTok
  | 0, _ => []
  | _ + 1, [] => []
  | fuel + 1, '*' :: rest => .star :: tokenizeAux fuel rest
  | fuel + 1, '?' :: rest => .anyc :: tokenizeAux fuel rest
  | fuel + 1, '[' :: rest =>
    match parseCls rest with
    | some (neg, rs, rest2) => .cls neg rs :: tokenizeAux fuel rest2
    | none => .lit '[' :: tokenizeAux fuel rest
  | fuel + 1, c :: rest => .lit c :: tokenizeAux fuel rest

def tokenize (cs : List Char) : List GTok := tokenizeAux cs.length cs

def inRanges (c : Char) (rs : List (Char × Char)) : Bool :=
  rs.any (fun r => decide (r.1 ≤ c) && decide (c ≤ r.2))

def tokMatch : List GTok → List Char → Bool
  | [], cs => cs.isEmpty
  | .star :: ps, cs => (List.range (cs.length + 1)).any (fun n => tokMatch ps (cs.drop n))
  | .anyc :: _, [] => false
  | .anyc :: ps, _ :: cs => tokMatch ps cs
  | .lit _ :: _, [] => false
  | .lit a :: ps, c :: cs => a == c && tokMatch ps cs
  | .cls _ _ :: _, [] => false
  | .cls neg rs :: ps, c :: cs => (neg != inRanges c rs) && tokMatch ps cs

/-- Embedding of `glob.fnmatch.fnmatch(name, pattern)` (POSIX, where
`normcase` is the identity). -/
def fnmatch (name pattern : String) : Bool := tokMatch (tokenize pattern.data) name.data

/-- One path (given as its rendered character string) against a pattern
list: `any(fnmatch(path, pattern) for pattern in exclude_patterns)`.
An empty pattern list matches nothing, which also covers the Python
`if exclude_patterns:` falsy guard for `None`/`[]`. -/
def matchesAny (patterns : List String) (cs : List Char) : Bool :=
  patterns.any (fun p => tokMatch (tokenize p.data) cs)

/-! ### Path arithmetic -/

/-- Rendered absolute path: `absChars ["src", "b.log"]` is the
character list of `"/src/b.log"`, matching `os.path.join(root, name)`
as it appears in the `os.walk` loop. -/
def absChars (segs : List String) : List Char :=
  segs.foldl (fun a s => a ++ '/' :: s.data) []

/-- Rendered relative path (no leading separator), used for archive
entry names: the segments joined by `/`. -/
def relChars : List String → List Char
  | [] => []
  | [s] => s.data
  | s :: rest => s.data ++ '/' :: relChars rest

def commonPrefixLen : List String → List String → Nat
  | a :: as, b :: bs => if a = b then commonPrefixLen as bs + 1 else 0
  | _, _ => 0

/-- Embedding of `os.path.relpath(path, start)` on resolved absolute
segment lists: strip the common prefix, climb with `..` for what
remains of `start`, and return `.` for the empty result. -/
def relpathSegs (p start : List String) : List String :=
  let k := commonPrefixLen p start
  let r := List.replicate (start.length - k) ".." ++ p.drop k
  if r = [] then ["."] else r

/-- Resolution of a relative path against an extraction root, the way
an archive extractor normalizes entry names: `..` pops a segment, `.`
is dropped. -/
def resolveSegs (root rel : List String) : List String :=
  rel.foldl (fun acc s => if s = ".." then acc.dropLast else if s = "." then acc else acc ++ [s]) root

/-- A well-formed file or directory name on a real filesystem: nonempty,
not one of the two dot entries, and free of the separator. -/
def validSeg (s : String) : Bool :=
  !(decide (s = "")) && !(decide (s = ".")) && !(decide (s = "..")) && !(decide ('/' ∈ s.data))

/-! ### Directory trees and the zip-mode walk of `backup_directory`

`FSTree.node files dirs` is one directory: its file names and its named
subdirectories, in listing order. -/

mutual
inductive FSTree where
  | node : List String → DirList → FSTree
inductive DirList where
  | dnil : DirList
  | dcons : String → FSTree → DirList → DirList
end

mutual
def validTree : FSTree → Bool
  | .node files dirs => files.all validSeg && validDirs dirs
def validDirs : DirList → Bool
  | .dnil => true
  | .dcons d t rest => validSeg d && validTree t && validDirs rest
end

mutual
/-- The `os.walk(source_path)` loop of zip-mode `backup_directory`
(task_automator.py:53-71): per directory, prune subdirectories whose
full joined path matches an exclusion pattern, skip files whose full
joined path matches one, and emit for each remaining file the pair of
its full path and its `os.path.relpath(file_path, source_path)`
archive name, in write order (files of a directory before its
subtrees). -/
def zipWalk (excl : List String) (source rel : List String) :
    FSTree → List (List String × List String)
  | .node files dirs =>
    (files.filter (fun f => !(matchesAny excl (absChars (source ++ rel ++ [f]))))).map
      (fun f => (source ++ rel ++ [f], relpathSegs (source ++ rel ++ [f]) source))
    ++ zipWalkDirs excl source rel dirs
def zipWalkDirs (excl : List String) (source rel : List String) :
    DirList → List (List String × List String)
  | .dnil => []
  | .dcons d t rest =>
    (if matchesAny excl (absChars (source ++ rel ++ [d])) then []
     else zipWalk excl source (rel ++ [d]) t)
    ++ zipWalkDirs excl source rel rest
end

/-- Archive manifest of a zip-mode backup: the archive-relative entry
names, in write order. -/
def backupZipManifest (excl : List String) (source : List String) (t : FSTree) :
    List (List String) :=
  (zipWalk excl source [] t).map (fun e => e.2)

mutual
/-- Directory-copy mode of `backup_directory`
(task_automator.py:79-83): `shutil.copytree` with
`shutil.ignore_patterns(*exclude_patterns)`, which `fnmatch`es each
directory entry NAME (not its full path) against the patterns and
skips matching files and whole matching subtrees.  Result: the copied
files' paths relative to the source root. -/
def copyTree (excl : List String) : FSTree → List (List String)
  | .node files dirs =>
    (files.filter (fun f => !(matchesAny excl f.data))).map (fun f => [f])
    ++ copyTreeDirs excl dirs
def copyTreeDirs (excl : List String) : DirList → List (List String)
  | .dnil => []
  | .dcons d t rest =>
    (if matchesAny excl d.data then [] else (copyTree excl t).map (fun p => d :: p))
    ++ copyTreeDirs excl rest
end

/-! ### `backup_directory`, zip mode, with read failures -/

inductive AutoError where
  | notFound : AutoError
  | ioError : AutoError
deriving DecidableEq

/-- Body of the `try:` block of zip-mode `backup_directory`
(task_automator.py:34-87): a missing source raises
`FileNotFoundError` before the archive file is created (disk stays
`none`); otherwise the `zipfile.ZipFile` is created and the walked
entries are written in order until the first unreadable file
(`bad`), whose `zipf.write` raises and aborts the loop — the entries
already written stay in the archive file on disk, which the context
manager closes on the way out. -/
def backup_core (src : Option FSTree) (source : List String) (excl : List String)
    (bad : List String → Bool) : Except AutoError Unit × Option (List (List String)) :=
  match src with
  | none => (.error .notFound, none)
  | some t =>
    let entries := zipWalk excl source [] t
    ((if entries.all (fun e => !(bad e.1)) then .ok () else .error .ioError),
     some ((entries.takeWhile (fun e => !(bad e.1))).map (fun e => e.2)))

/-- Public `backup_directory` in zip mode: the surrounding
`except Exception` (task_automator.py:89-91) turns every error into
the sentinel `None`; the first component is `some ()` exactly when the
backup path was returned, the second is the archive file left on disk
(`none` when no archive file was ever created). -/
def backup_directory (src : Option FSTree) (source : List String) (excl : List String)
    (bad : List String → Bool) : Option Unit × Option (List (List String)) :=
  match backup_core src source excl bad with
  | (.ok _, disk) => (some (), disk)
  | (.error _, disk) => (none, disk)

/-! ### `clean_directory` -/

/-- One directory entry seen by `dir_path.glob(pattern)`: name, byte
size, modification time (seconds), and whether it is a regular file. -/
structure CEntry where
  name : String
  size : Nat
  mtime : ℚ
  isFile : Bool
deriving DecidableEq

/-- The qualification test of the selection loop
(task_automator.py:118-125): the entry is matched by the glob pattern
(modelled for single-component patterns over the directory's entries),
is a regular file, and — when `older_than` is set — its age
`(current_time - st_mtime) / (60*60*24)` is NOT below the threshold. -/
def cleanQualifies (pattern : String) (older_than : Option ℚ) (now : ℚ) (f : CEntry) : Bool :=
  fnmatch f.name pattern && f.isFile &&
    (match older_than with
     | none => true
     | some d => !(decide ((now - f.mtime) / (60 * 60 * 24) < d)))

def files_to_delete (entries : List CEntry) (pattern : String) (older_than : Option ℚ)
    (now : ℚ) : List CEntry :=
  entries.filter (cleanQualifies pattern older_than now)

/-- Body of the `try:` block of `clean_directory`
(task_automator.py:106-151): a missing directory raises; otherwise the
deletion list and its total size are computed up front, the files are
removed only when not in dry-run mode, and `(len(files_to_delete),
total_size)` is returned in both modes. -/
def clean_core (dir : Option (List CEntry)) (pattern : String) (older_than : Option ℚ)
    (dry_run : Bool) (now : ℚ) : Except AutoError ((Nat × Nat) × List CEntry) :=
  match dir with
  | none => .error .notFound
  | some entries =>
    let td := files_to_delete entries pattern older_than now
    let total := (td.map (fun f => f.size)).sum
    .ok ((td.length, total),
      if dry_run then entries
      else entries.filter (fun f => !(cleanQualifies pattern older_than now f)))

/-- Public `clean_directory`: the `except Exception` handler
(task_automator.py:153-155) turns every error into the `(0, 0)`
sentinel; the second component is the directory contents afterwards. -/
def clean_directory (dir : Option (List CEntry)) (pattern : String) (older_than : Option ℚ)
    (dry_run : Bool) (now : ℚ) : (Nat × Nat) × Option (List CEntry) :=
  match clean_core dir pattern older_than dry_run now with
  | .ok (r, st) => (r, some st)
  | .error _ => ((0, 0), dir)

/-! ### `organize_files` -/

/-- Embedding of `pathlib`'s `suffix`: the part from the last dot on,
provided that dot is neither the first nor the last character of the
name. -/
def pathSuffix (name : String) : String :=
  let cs := name.data
  let j := cs.reverse.findIdx (fun c => c = '.')
  if j < cs.length then
    let i := cs.length - 1 - j
    if 0 < i ∧ i < cs.length - 1 then ⟨cs.drop i⟩ else ""
  else ""

/-- Embedding of `pathlib`'s `stem`: the name with `pathSuffix`
removed. -/
def pathStem (name : String) : String :=
  let cs := name.data
  let j := cs.reverse.findIdx (fun c => c = '.')
  if j < cs.length then
    let i := cs.length - 1 - j
    if 0 < i ∧ i < cs.length - 1 then ⟨cs.take i⟩ else name
  else name

def strLower (s : String) : String := ⟨s.data.map Char.toLower⟩

/-- Extension key of `organize_files`
(task_automator.py:223): `file_path.suffix.lower().lstrip('.')`. -/
def extOf (name : String) : String :=
  ⟨(strLower (pathSuffix name)).data.dropWhile (fun c => c = '.')⟩

/-- Python `dict` lookup on the rule table, as an association list in
insertion order. -/
def lookupRule : List (String × String) → String → Option String
  | [], _ => none
  | (e, d) :: rest, ext => if e = ext then some d else lookupRule rest ext

/-- Split a character list on a separator character, like Python
`str.split`. -/
def splitOnChar (sep : Char) : List Char → List (List Char)
  | [] => [[]]
  | c :: rest =>
    match splitOnChar sep rest with
    | [] => [[]]
    | g :: gs => if c = sep then [] :: g :: gs else (c :: g) :: gs

/-- Destination folder string to path segments, the way
`dir_path / rules[extension]` joins in `pathlib`: split on the
separator, dropping empty and `.` components. -/
def destSegsOf (d : String) : List String :=
  ((splitOnChar '/' d.data).map (fun g => (⟨g⟩ : String))).filter
    (fun s => !(s == "") && !(s == "."))

/-- Default rule table of `organize_files`
(task_automator.py:174-215), in source order. -/
def default_rules : List (String × String) :=
  [("pdf", "Documents/PDFs"),
   ("doc", "Documents/Word"), ("docx", "Documents/Word"),
   ("xls", "Documents/Excel"), ("xlsx", "Documents/Excel"),
   ("ppt", "Documents/PowerPoint"), ("pptx", "Documents/PowerPoint"),
   ("txt", "Documents/Text"),
   ("jpg", "Images"), ("jpeg", "Images"),
   ("png", "Images"),
   ("gif", "Images"),
   ("bmp", "Images"),
   ("mp3", "Media/Audio"),
   ("wav", "Media/Audio"),
   ("mp4", "Media/Video"),
   ("avi", "Media/Video"),
   ("mkv", "Media/Video"),
   ("zip", "Files/Compressed"),
   ("rar", "Files/Compressed"),
   ("tar", "Files/Compressed"),
   ("gz", "Files/Compressed"),
   ("exe", "Installers"),
   ("msi", "Installers"),
   ("dmg", "Installers"),
   ("py", "Code/Python"),
   ("js", "Code/JavaScript"),
   ("html", "Code/Web"),
   ("css", "Code/Web"),
   ("java", "Code/Java"),
   ("c", "Code/C"),
   ("cpp", "Code/C++")]

/-- Directory contents under `organize_files`: each regular file's path
relative to the directory being organized, with an abstract content
identifier so that overwrites are observable. -/
abbrev OrgState := List (List String × Nat)

/-- The non-recursive `dir_path.glob('*')` listing filtered by
`is_file()` (task_automator.py:221-222): the immediate file children
of the directory (`pathlib`'s glob has no hidden-file rule; entries of
`OrgState` are files, so deeper paths and subdirectories are what
`is_file()` rejects). -/
def immediateFiles (st : OrgState) : List (String × Nat) :=
  st.filterMap (fun e => match e.1 with
    | [n] => some (n, e.2)
    | _ => none)

/-- One iteration of the move loop (task_automator.py:222-239): look up
the extension; on a hit, build the destination path, divert to the
`_<timestamp>`-renamed name when the destination exists, and perform
`shutil.move` (which replaces an existing file at the final
destination). -/
def organizeStep (rules : List (String × String)) (ts : String)
    (acc : Nat × OrgState) (item : String × Nat) : Nat × OrgState :=
  match lookupRule rules (extOf item.1) with
  | none => acc
  | some destF =>
    let destSegs := destSegsOf destF
    let dest := destSegs ++ [item.1]
    let finalDest :=
      if acc.2.any (fun e => decide (e.1 = dest)) then
        destSegs ++ [pathStem item.1 ++ "_" ++ ts ++ pathSuffix item.1]
      else dest
    (acc.1 + 1,
     acc.2.filter (fun e => !(decide (e.1 = [item.1]) || decide (e.1 = finalDest)))
       ++ [(finalDest, item.2)])

/-- The body of the move loop over the directory's immediate files;
`ts` is the `%Y%m%d_%H%M%S` timestamp string used for collision
renames during this run. -/
def organize_run (rules : List (String × String)) (ts : String) (st : OrgState) :
    Nat × OrgState :=
  (immediateFiles st).foldl (organizeStep rules ts) (0, st)

/-- Body of the `try:` block of `organize_files`
(task_automator.py:168-243): a missing directory raises; an empty
(falsy) rule table is replaced by the default table; then the move
loop runs. -/
def organize_core (dir : Option OrgState) (rules : List (String × String)) (ts : String) :
    Except AutoError (Nat × OrgState) :=
  match dir with
  | none => .error .notFound
  | some st => .ok (organize_run (if rules.isEmpty then default_rules else rules) ts st)

/-- Public `organize_files`: the `except Exception` handler
(task_automator.py:245-247) turns every error into the `0` sentinel;
the second component is the directory contents afterwards. -/
def organize_files (dir : Option OrgState) (rules : List (String × String)) (ts : String) :
    Nat × Option OrgState :=
  match organize_core dir rules ts with
  | .ok (n, st) => (n, some st)
  | .error _ => (0, dir)

/-! ### Path arithmetic lemmas -/

theorem commonPrefixLen_append_self (start suf : List String) :
    commonPrefixLen (start ++ suf) start = start.length := by
  induction start with
  | nil => cases suf <;> simp [commonPrefixLen]
  | cons a as ih => simp [commonPrefixLen, ih]

theorem relpathSegs_append (start suf : List String) (h : suf ≠ []) :
    relpathSegs (start ++ suf) start = suf := by
  unfold relpathSegs
  rw [commonPrefixLen_append_self]
  simp [List.drop_left, h]

theorem resolveSegs_clean (rel : List String) (hc : ∀ s ∈ rel, s ≠ ".." ∧ s ≠ ".") :
    ∀ root, resolveSegs root rel = root ++ rel := by
  induction rel with
  | nil => intro root; simp [resolveSegs]
  | cons s rest ih =>
    intro root
    have hs := hc s (by simp)
    have hstep : resolveSegs root (s :: rest) = resolveSegs (root ++ [s]) rest := by
      simp [resolveSegs, hs.1, hs.2]
    rw [hstep, ih (fun x hx => hc x (by simp [hx]))]
    simp

/-! ### The zip-mode walk: structure of every emitted entry -/

theorem validSeg_spec {s : String} (h : validSeg s = true) :
    s ≠ "" ∧ s ≠ "." ∧ s ≠ ".." ∧ '/' ∉ s.data := by
  simpa [validSeg, Bool.and_eq_true, Bool.not_eq_true', decide_eq_false_iff_not,
    and_assoc] using h

theorem strData_ne_nil {s : String} (h : s ≠ "") : s.data ≠ [] := by
  intro hd
  exact h (String.ext (by rw [hd]))

mutual
theorem zipWalk_mem {excl source : List String} :
    ∀ (t : FSTree) (rel : List String) (e : List String × List String),
      e ∈ zipWalk excl source rel t →
      ∃ suf, e.1 = source ++ rel ++ suf ∧ suf ≠ [] ∧
        e.2 = relpathSegs e.1 source ∧
        (validTree t = true → suf.all validSeg = true) ∧
        matchesAny excl (absChars e.1) = false ∧
        (∀ q, source ++ rel <+: q → q <+: e.1 → q ≠ source ++ rel → q ≠ e.1 →
          matchesAny excl (absChars q) = false)
  | .node files dirs, rel, e, h => by
    rw [zipWalk] at h
    rcases List.mem_append.1 h with hf | hd
    · rcases List.mem_map.1 hf with ⟨f, hfin, rfl⟩
      rcases List.mem_filter.1 hfin with ⟨hfmem, hfpred⟩
      have hmatch : matchesAny excl (absChars (source ++ rel ++ [f])) = false := by
        simpa using hfpred
      refine ⟨[f], rfl, by simp, rfl, ?_, hmatch, ?_⟩
      · intro hv
        rw [validTree, Bool.and_eq_true] at hv
        have hall := List.all_eq_true.1 hv.1
        simp [hall f hfmem]
      · intro q hq1 hq2 hne1 hne2
        rcases hq1 with ⟨mid, rfl⟩
        rcases mid with _ | ⟨x, mid'⟩
        · exact absurd (by simp) hne1
        · rcases (List.cons_prefix_cons).1
            ((List.prefix_append_right_inj (source ++ rel)).1 hq2) with ⟨rfl, hmid'⟩
          rcases List.prefix_nil.1 hmid' with rfl
          exact absurd rfl hne2
    · rcases zipWalkDirs_mem dirs rel e hd with ⟨suf, h1, h2, h3, h4, h5, h6⟩
      refine ⟨suf, h1, h2, h3, ?_, h5, h6⟩
      intro hv
      rw [validTree, Bool.and_eq_true] at hv
      exact h4 hv.2
theorem zipWalkDirs_mem {excl source : List String} :
    ∀ (ds : DirList) (rel : List String) (e : List String × List String),
      e ∈ zipWalkDirs excl source rel ds →
      ∃ suf, e.1 = source ++ rel ++ suf ∧ suf ≠ [] ∧
        e.2 = relpathSegs e.1 source ∧
        (validDirs ds = true → suf.all validSeg = true) ∧
        matchesAny excl (absChars e.1) = false ∧
        (∀ q, source ++ rel <+: q → q <+: e.1 → q ≠ source ++ rel → q ≠ e.1 →
          matchesAny excl (absChars q) = false)
  | .dnil, _, e, h => by
    rw [zipWalkDirs] at h
    simp at h
  | .dcons d t rest, rel, e, h => by
    rw [zipWalkDirs] at h
    rcases List.mem_append.1 h with hin | hrest
    · by_cases hm : matchesAny excl (absChars (source ++ rel ++ [d])) = true
      · rw [if_pos hm] at hin
        simp at hin
      · have hmf : matchesAny excl (absChars (source ++ rel ++ [d])) = false := by
          simpa using hm
        rw [if_neg hm] at hin
        rcases zipWalk_mem t (rel ++ [d]) e hin with ⟨suf', h1, h2, h3, h4, h5, h6⟩
        have he1 : e.1 = (source ++ rel) ++ ([d] ++ suf') := by
          rw [h1]; simp
        refine ⟨d :: suf', by simpa using he1, by simp, h3, ?_, h5, ?_⟩
        · intro hv
          rw [validDirs, Bool.and_eq_true, Bool.and_eq_true] at hv
          simp [hv.1.1, h4 hv.1.2]
        · intro q hq1 hq2 hne1 hne2
          rcases hq1 with ⟨mid, rfl⟩
          rcases mid with _ | ⟨x, mid'⟩
          · exact absurd (by simp) hne1
          · rw [he1] at hq2
            have hx : x :: mid' <+: d :: suf' := by
              have hh := (List.prefix_append_right_inj (source ++ rel)).1 hq2
              simpa using hh
            rcases (List.cons_prefix_cons).1 hx with ⟨rfl, hmid'⟩
            rcases mid' with _ | ⟨y, mid''⟩
            · simpa using hmf
            · have hpre1 : source ++ (rel ++ [x]) <+: source ++ rel ++ x :: y :: mid'' := by
                refine ⟨y :: mid'', ?_⟩
                simp
              have hpre2 : source ++ rel ++ x :: y :: mid'' <+: e.1 := by
                rw [he1]
                exact hq2
              have hne3 : source ++ rel ++ x :: y :: mid'' ≠ source ++ (rel ++ [x]) := by
                intro heq
                have hlen := congrArg List.length heq
                simp [List.length_append] at hlen
              exact h6 (source ++ rel ++ x :: y :: mid'') hpre1 hpre2 hne3 hne2
    · rcases zipWalkDirs_mem rest rel e hrest with ⟨suf, h1, h2, h3, h4, h5, h6⟩
      refine ⟨suf, h1, h2, h3, ?_, h5, h6⟩
      intro hv
      rw [validDirs, Bool.and_eq_true, Bool.and_eq_true] at hv
      exact h4 hv.2
end

/-- Example source tree `{a.txt, b.log, sub/c.txt}` from the spec's
scenarios. -/
def exampleTree : FSTree :=
  .node ["a.txt", "b.log"] (.dcons "sub" (.node ["c.txt"] .dnil) .dnil)

theorem relChars_head_ne_slash {a : List String} (hne : a ≠ [])
    (hv : ∀ s ∈ a, validSeg s = true) : (relChars a).head? ≠ some '/' := by
  cases a with
  | nil => exact absurd rfl hne
  | cons s rest =>
    have hs := validSeg_spec (hv s (by simp))
    rcases hsd : s.data with _ | ⟨c, cs⟩
    · exact absurd hsd (strData_ne_nil hs.1)
    · have hcmem : c ∈ s.data := by rw [hsd]; exact List.mem_cons_self _ _
      have hslash : c ≠ '/' := by
        intro hc
        exact hs.2.2.2 (hc ▸ hcmem)
      cases rest with
      | nil => simp [relChars, hsd, hslash]
      | cons t ts => simp [relChars, hsd, hslash]

/-- C1: every entry path recorded by zip-mode `backup_directory` is
relative to the source root: it is nonempty, contains no `..`, `.` or
empty segment, its rendered form does not begin with the separator (so
it is never absolute), and resolving it against any extraction root
yields exactly a path below that root (no escape). -/
theorem C1_zip_entries_relative (excl source : List String) (t : FSTree)
    (hv : validTree t = true) :
    ∀ a ∈ backupZipManifest excl source t,
      a ≠ [] ∧ ".." ∉ a ∧ "." ∉ a ∧ "" ∉ a ∧
      (relChars a).head? ≠ some '/' ∧
      ∀ root, resolveSegs root a = root ++ a ∧ root <+: resolveSegs root a := by
  intro a ha
  rcases List.mem_map.1 ha with ⟨e, he, rfl⟩
  rcases zipWalk_mem t [] e he with ⟨suf, h1, h2, h3, h4, _, _⟩
  have hsuf : e.2 = suf := by
    rw [h3, h1]
    have hnil : source ++ [] ++ suf = source ++ suf := by simp
    rw [hnil]
    exact relpathSegs_append source suf h2
  rw [hsuf]
  have hvalid : ∀ s ∈ suf, validSeg s = true := List.all_eq_true.1 (h4 hv)
  have hdots : ∀ s ∈ suf, s ≠ ".." ∧ s ≠ "." := by
    intro s hs
    have hspec := validSeg_spec (hvalid s hs)
    exact ⟨hspec.2.2.1, hspec.2.1⟩
  refine ⟨h2, ?_, ?_, ?_, relChars_head_ne_slash h2 hvalid, ?_⟩
  · intro hmem
    exact (validSeg_spec (hvalid _ hmem)).2.2.1 rfl
  · intro hmem
    exact (validSeg_spec (hvalid _ hmem)).2.1 rfl
  · intro hmem
    exact (validSeg_spec (hvalid _ hmem)).1 rfl
  · intro root
    have hres := resolveSegs_clean suf hdots root
    exact ⟨hres, by rw [hres]; exact ⟨suf, rfl⟩⟩

/-- C1 witness: the concrete entry `sub/c.txt` of the example backup,
resolved against the extraction root `extract`. -/
theorem C1_zip_entries_relative_witness :
    (["sub", "c.txt"] : List String) ≠ [] ∧
    ".." ∉ (["sub", "c.txt"] : List String) ∧
    "." ∉ (["sub", "c.txt"] : List String) ∧
    "" ∉ (["sub", "c.txt"] : List String) ∧
    (relChars ["sub", "c.txt"]).head? ≠ some '/' ∧
    resolveSegs ["extract"] ["sub", "c.txt"] = ["extract", "sub", "c.txt"] ∧
    ["extract"] <+: resolveSegs ["extract"] ["sub", "c.txt"] := by
  have h := C1_zip_entries_relative ["*.log"] ["src"] exampleTree (by rfl)
    ["sub", "c.txt"] (by decide)
  exact ⟨h.1, h.2.1, h.2.2.1, h.2.2.2.1, h.2.2.2.2.1,
    (h.2.2.2.2.2 ["extract"]).1, (h.2.2.2.2.2 ["extract"]).2⟩

/-- C2: no file whose full path matches an exclusion pattern, and no
file lying under a directory whose full path matches one, is ever
written to the archive (every written entry has a non-matching path and
only non-matching directories strictly between the source root and the
file); and on the tree `{a.txt, b.log, sub/c.txt}` with exclusions
`["*.log"]` the manifest is exactly `{a.txt, sub/c.txt}`, two entries,
with `b.log` absent. -/
theorem C2_zip_exclusion (excl source : List String) (t : FSTree) :
    (∀ e ∈ zipWalk excl source [] t,
      matchesAny excl (absChars e.1) = false ∧
      ∀ q, source <+: q → q <+: e.1 → q ≠ source → q ≠ e.1 →
        matchesAny excl (absChars q) = false) ∧
    backupZipManifest ["*.log"] ["src"] exampleTree = [["a.txt"], ["sub", "c.txt"]] ∧
    (backupZipManifest ["*.log"] ["src"] exampleTree).length = 2 ∧
    ["b.log"] ∉ backupZipManifest ["*.log"] ["src"] exampleTree := by
  refine ⟨?_, rfl, rfl, by decide⟩
  intro e he
  rcases zipWalk_mem t [] e he with ⟨suf, _, _, _, _, h5, h6⟩
  refine ⟨h5, ?_⟩
  intro q hq1 hq2 hqne1 hqne2
  exact h6 q (by simpa using hq1) hq2 (by simpa using hqne1) hqne2

/-- C2 witness: the surviving entry `a.txt` of the example backup has a
non-matching full path. -/
theorem C2_zip_exclusion_witness :
    matchesAny ["*.log"] (absChars ["src", "a.txt"]) = false := by
  have h := (C2_zip_exclusion ["*.log"] ["src"] exampleTree).1
    (["src", "a.txt"], ["a.txt"]) (by decide)
  exact h.1

/-! ### C3 / C4: retention evaluation -/

theorem cleanQualifies_some_iff (pattern : String) (d now : ℚ) (f : CEntry) :
    cleanQualifies pattern (some d) now f = true ↔
      fnmatch f.name pattern = true ∧ f.isFile = true ∧ d * 86400 ≤ now - f.mtime := by
  simp only [cleanQualifies, Bool.and_eq_true, Bool.not_eq_true', decide_eq_false_iff_not]
  rw [not_lt, le_div_iff₀ (by norm_num : (0 : ℚ) < 60 * 60 * 24)]
  norm_num
  tauto

theorem cleanQualifies_none_iff (pattern : String) (now : ℚ) (f : CEntry) :
    cleanQualifies pattern none now f = true ↔
      fnmatch f.name pattern = true ∧ f.isFile = true := by
  simp [cleanQualifies]

/-- C3: `clean_directory` qualifies exactly the pattern-matched regular
files whose age (from the single captured `now`) is at least
`older_than` days: a file whose modification time is exactly
`older_than * 86400` seconds before `now` qualifies, one a second
younger does not, and with `older_than` unset every matched file
qualifies. -/
theorem C3_clean_retention_boundary (entries : List CEntry) (pattern : String)
    (d now : ℚ) (f : CEntry) :
    (f ∈ files_to_delete entries pattern (some d) now ↔
      f ∈ entries ∧ fnmatch f.name pattern = true ∧ f.isFile = true ∧
        d * 86400 ≤ now - f.mtime) ∧
    (f ∈ files_to_delete entries pattern none now ↔
      f ∈ entries ∧ fnmatch f.name pattern = true ∧ f.isFile = true) ∧
    (f ∈ entries → fnmatch f.name pattern = true → f.isFile = true →
      f.mtime = now - d * 86400 →
      f ∈ files_to_delete entries pattern (some d) now) ∧
    (f.mtime = now - d * 86400 + 1 →
      f ∉ files_to_delete entries pattern (some d) now) := by
  refine ⟨?_, ?_, ?_, ?_⟩
  · rw [files_to_delete, List.mem_filter, cleanQualifies_some_iff]
  · rw [files_to_delete, List.mem_filter, cleanQualifies_none_iff]
  · intro hin hm hf hmt
    rw [files_to_delete, List.mem_filter, cleanQualifies_some_iff]
    refine ⟨hin, hm, hf, ?_⟩
    rw [hmt]
    ring_nf
    exact le_refl _
  · intro hmt hmem
    rw [files_to_delete, List.mem_filter, cleanQualifies_some_iff] at hmem
    have := hmem.2.2.2
    rw [hmt] at this
    linarith

/-- C3 witness: with `older_than = 30` days and `now = 30 * 86400`, the
file modified at time `0` (exactly at the boundary) qualifies, and the
file modified at time `1` (one second younger) does not. -/
theorem C3_clean_retention_boundary_witness :
    (⟨"old.txt", 5, 0, true⟩ : CEntry) ∈
      files_to_delete [⟨"old.txt", 5, 0, true⟩, ⟨"new.txt", 5, 1, true⟩] "*"
        (some 30) (30 * 86400) ∧
    (⟨"new.txt", 5, 1, true⟩ : CEntry) ∉
      files_to_delete [⟨"old.txt", 5, 0, true⟩, ⟨"new.txt", 5, 1, true⟩] "*"
        (some 30) (30 * 86400) := by
  constructor
  · exact (C3_clean_retention_boundary _ "*" 30 (30 * 86400) _).2.2.1
      (by simp) (by rfl) (by rfl) (by norm_num)
  · exact (C3_clean_retention_boundary _ "*" 30 (30 * 86400) _).2.2.2 (by norm_num)

/-- C4: with the same directory state, pattern, threshold and captured
`now`, the dry run reports exactly the `(count, bytes)` pair the live
run reports, and leaves the directory contents unchanged. -/
theorem C4_clean_dry_run_equiv (dir : Option (List CEntry)) (pattern : String)
    (older_than : Option ℚ) (now : ℚ) :
    (clean_directory dir pattern older_than true now).1 =
      (clean_directory dir pattern older_than false now).1 ∧
    (clean_directory dir pattern older_than true now).2 = dir := by
  cases dir <;> simp [clean_directory, clean_core]

/-! ### C8 / C10: error propagation -/

/-- C8 as stated is refuted: the caller of `backup_directory` receives
the same sentinel `None` for a missing source as for an I/O failure on
a readable source — the internally raised `FileNotFoundError` is
caught by the function's own handler and never reported to the
caller. -/
theorem C8_counterexample :
    (backup_core none ["src"] [] (fun _ => false)).1 = .error .notFound ∧
    (backup_core (some (.node ["a.txt"] .dnil)) ["src"] [] (fun _ => true)).1 =
      .error .ioError ∧
    (backup_directory none ["src"] [] (fun _ => false)).1 =
      (backup_directory (some (.node ["a.txt"] .dnil)) ["src"] [] (fun _ => true)).1 := by
  exact ⟨rfl, rfl, rfl⟩

/-- C8 amended: a missing required path makes the operation raise
`FileNotFoundError` internally, which is fatal to the whole operation
(nothing is touched); but the public function catches it and signals
failure to the caller only through its sentinel return value, not by
propagating the error. -/
theorem C8_resolution_error_sentinel (source excl : List String) (bad : List String → Bool)
    (pattern : String) (older_than : Option ℚ) (dry_run : Bool) (now : ℚ)
    (rules : List (String × String)) (ts : String) :
    (backup_core none source excl bad).1 = .error .notFound ∧
    (backup_core none source excl bad).2 = none ∧
    backup_directory none source excl bad = (none, none) ∧
    clean_core none pattern older_than dry_run now = .error .notFound ∧
    clean_directory none pattern older_than dry_run now = ((0, 0), none) ∧
    organize_core none rules ts = .error .notFound ∧
    organize_files none rules ts = (0, none) := by
  exact ⟨rfl, rfl, rfl, rfl, rfl, rfl, rfl⟩

/-- C10: the public operations are total and every failure is signaled
only through the sentinel return value: whenever the `try:` body ends
in an error — including the missing-source/missing-directory case —
`backup_directory` returns `None`, `clean_directory` returns `(0, 0)`
and `organize_files` returns `0`. -/
theorem C10_sentinel_returns :
    (∀ (src : Option FSTree) (source excl : List String) (bad : List String → Bool)
        (e : AutoError), (backup_core src source excl bad).1 = .error e →
      (backup_directory src source excl bad).1 = none) ∧
    (∀ (dir : Option (List CEntry)) (pattern : String) (older_than : Option ℚ)
        (dry_run : Bool) (now : ℚ) (e : AutoError),
      clean_core dir pattern older_than dry_run now = .error e →
      (clean_directory dir pattern older_than dry_run now).1 = (0, 0)) ∧
    (∀ (dir : Option OrgState) (rules : List (String × String)) (ts : String)
        (e : AutoError), organize_core dir rules ts = .error e →
      (organize_files dir rules ts).1 = 0) ∧
    (∀ (source excl : List String) (bad : List String → Bool),
      (backup_directory none source excl bad).1 = none) ∧
    (∀ (pattern : String) (older_than : Option ℚ) (dry_run : Bool) (now : ℚ),
      (clean_directory none pattern older_than dry_run now).1 = (0, 0)) ∧
    (∀ (rules : List (String × String)) (ts : String),
      (organize_files none rules ts).1 = 0) := by
  refine ⟨?_, ?_, ?_, fun _ _ _ => rfl, fun _ _ _ _ => rfl, fun _ _ => rfl⟩
  · intro src source excl bad e h
    unfold backup_directory
    rcases hb : backup_core src source excl bad with ⟨r, disk⟩
    rw [hb] at h
    cases r with
    | ok v => simp at h
    | error e2 => rfl
  · intro dir pattern older_than dry_run now e h
    unfold clean_directory
    rw [h]
  · intro dir rules ts e h
    unfold organize_files
    rw [h]

/-- C10 witness: the error cases at concrete inputs. -/
theorem C10_sentinel_returns_witness :
    (backup_directory (some (.node ["a.txt"] .dnil)) ["src"] [] (fun _ => true)).1 =
      none ∧
    (clean_directory none "*" none false 0).1 = (0, 0) ∧
    (organize_files none [] "20250101_120000").1 = 0 := by
  refine ⟨?_, ?_, ?_⟩
  · exact C10_sentinel_returns.1 _ _ _ _ .ioError rfl
  · exact C10_sentinel_returns.2.1 none "*" none false 0 .notFound rfl
  · exact C10_sentinel_returns.2.2.1 none [] "20250101_120000" .notFound rfl

/-! ### C5 / C9: counterexamples on archive failure and mode equivalence -/

/-- C5 as stated is refuted: when reading `b.bad` fails, the operation
aborts and returns `None`, but the partially written archive file —
holding `a.txt`, so neither empty nor structurally complete — is left
behind on disk. -/
theorem C5_counterexample :
    (backup_directory (some (.node ["a.txt", "b.bad"] .dnil)) ["src"] []
      (fun p => decide (p = ["src", "b.bad"]))).1 = none ∧
    (backup_directory (some (.node ["a.txt", "b.bad"] .dnil)) ["src"] []
      (fun p => decide (p = ["src", "b.bad"]))).2 = some [["a.txt"]] ∧
    ([["a.txt"]] : List (List String)) ≠ [] ∧
    ([["a.txt"]] : List (List String)) ≠
      backupZipManifest [] ["src"] (.node ["a.txt", "b.bad"] .dnil) := by
  refine ⟨rfl, rfl, by simp, by decide⟩

/-- C9 as stated is refuted: with exclusion pattern `b.log`, zip mode
matches the pattern against the full path `/src/b.log` (no match, so
the file is archived) while directory-copy mode matches it against the
base name `b.log` (match, so the file is skipped): the two modes do
not honor the same exclusion semantics. -/
theorem C9_counterexample :
    backupZipManifest ["b.log"] ["src"] (.node ["b.log"] .dnil) = [["b.log"]] ∧
    copyTree ["b.log"] (.node ["b.log"] .dnil) = [] := by
  exact ⟨rfl, rfl⟩

/-! ### C5 amended: abort semantics of a failed zip write -/

theorem takeWhile_length_lt {α : Type} (p : α → Bool) :
    ∀ (l : List α), (∃ x ∈ l, p x = false) → (l.takeWhile p).length < l.length := by
  intro l
  induction l with
  | nil =>
    rintro ⟨x, hx, _⟩
    cases hx
  | cons a rest ih =>
    rintro ⟨x, hx, hpx⟩
    rw [List.takeWhile_cons]
    by_cases hpa : p a = true
    · rw [if_pos hpa]
      simp only [List.length_cons, Nat.add_lt_add_iff_right]
      apply ih
      rcases List.mem_cons.1 hx with rfl | hx2
      · rw [hpa] at hpx
        cases hpx
      · exact ⟨x, hx2, hpx⟩
    · rw [if_neg hpa]
      simp

/-- C5 amended: when reading some walked file fails, the operation
aborts — no later entry is written and the caller receives `None` —
but the archive file is left behind on disk holding exactly the
entries written before the first failure, a strict initial part of the
full manifest rather than being deleted. -/
theorem C5_backup_abort_amended (t : FSTree) (source excl : List String)
    (bad : List String → Bool)
    (h : ∃ e ∈ zipWalk excl source [] t, bad e.1 = true) :
    (backup_directory (some t) source excl bad).1 = none ∧
    (backup_directory (some t) source excl bad).2 =
      some (((zipWalk excl source [] t).takeWhile (fun e => !(bad e.1))).map
        (fun e => e.2)) ∧
    (((zipWalk excl source [] t).takeWhile (fun e => !(bad e.1))).map
        (fun e => e.2)).length < (backupZipManifest excl source t).length := by
  rcases h with ⟨e0, he0, hbad⟩
  have hall : (zipWalk excl source [] t).all (fun e => !(bad e.1)) = false := by
    cases hallc : (zipWalk excl source [] t).all (fun e => !(bad e.1)) with
    | false => rfl
    | true =>
      have hh := List.all_eq_true.1 hallc e0 he0
      rw [hbad] at hh
      cases hh
  have hcore : backup_core (some t) source excl bad =
      (.error .ioError,
       some (((zipWalk excl source [] t).takeWhile (fun e => !(bad e.1))).map
         (fun e => e.2))) := by
    simp [backup_core, hall]
  refine ⟨?_, ?_, ?_⟩
  · simp [backup_directory, hcore]
  · simp [backup_directory, hcore]
  · rw [backupZipManifest, List.length_map, List.length_map]
    exact takeWhile_length_lt _ _ ⟨e0, he0, by rw [hbad]; rfl⟩

/-- C5 amended witness: the two-file example where reading `b.bad`
fails after `a.txt` was written. -/
theorem C5_backup_abort_amended_witness :
    (backup_directory (some (.node ["a.txt", "b.bad"] .dnil)) ["src"] []
      (fun p => decide (p = ["src", "b.bad"]))).1 = none ∧
    (backup_directory (some (.node ["a.txt", "b.bad"] .dnil)) ["src"] []
      (fun p => decide (p = ["src", "b.bad"]))).2 =
      some (((zipWalk [] ["src"] [] (.node ["a.txt", "b.bad"] .dnil)).takeWhile
        (fun e => !(decide (e.1 = ["src", "b.bad"])))).map (fun e => e.2)) ∧
    (((zipWalk [] ["src"] [] (.node ["a.txt", "b.bad"] .dnil)).takeWhile
        (fun e => !(decide (e.1 = ["src", "b.bad"])))).map (fun e => e.2)).length <
      (backupZipManifest [] ["src"] (.node ["a.txt", "b.bad"] .dnil)).length := by
  exact C5_backup_abort_amended (.node ["a.txt", "b.bad"] .dnil) ["src"] []
    (fun p => decide (p = ["src", "b.bad"]))
    ⟨(["src", "b.bad"], ["b.bad"]), by decide, by decide⟩

/-! ### C9 amended: relating the two exclusion semantics -/

/-- A glob pattern whose compiled form begins with `*` (such as
`*.log`). -/
def starLed (p : String) : Bool :=
  match tokenize p.data with
  | .star :: _ => true
  | _ => false

theorem tokMatch_star_prepend (ps : List GTok) (pre s : List Char)
    (h : tokMatch (.star :: ps) s = true) :
    tokMatch (.star :: ps) (pre ++ s) = true := by
  rw [tokMatch] at h ⊢
  rw [List.any_eq_true] at h ⊢
  rcases h with ⟨n, hn, hm⟩
  refine ⟨pre.length + n, ?_, ?_⟩
  · rw [List.mem_range] at hn ⊢
    rw [List.length_append]
    omega
  · rw [List.drop_append]
    exact hm

/-- For a star-led pattern, a match of the base name extends to a match
of any longer rendered path ending in that name. -/
theorem matchesAny_name_to_path (excl : List String)
    (hstar : ∀ p ∈ excl, starLed p = true) (pre : List Char) (name : String)
    (h : matchesAny excl name.data = true) :
    matchesAny excl (pre ++ name.data) = true := by
  rw [matchesAny, List.any_eq_true] at h ⊢
  rcases h with ⟨p, hp, hm⟩
  refine ⟨p, hp, ?_⟩
  have hs := hstar p hp
  rcases htok : tokenize p.data with _ | ⟨t0, ts⟩
  · rw [starLed, htok] at hs
    exact Bool.noConfusion hs
  · rw [starLed, htok] at hs
    cases t0 with
    | star =>
      refine tokMatch_star_prepend ts pre _ ?_
      rw [← htok]
      exact hm
    | anyc => exact Bool.noConfusion hs
    | lit c => exact Bool.noConfusion hs
    | cls a b => exact Bool.noConfusion hs

theorem absChars_snoc (segs : List String) (n : String) :
    absChars (segs ++ [n]) = (absChars segs ++ ['/']) ++ n.data := by
  rw [absChars, List.foldl_append]
  simp [absChars]

mutual
/-- For star-led exclusion sets, zip mode excludes at least as much as
copy mode: every entry the zip walk emits survives the copy's
name-based filtering. -/
theorem zipWalk_subset_copy {excl source : List String}
    (hstar : ∀ p ∈ excl, starLed p = true) :
    ∀ (t : FSTree) (rel : List String) (e : List String × List String),
      e ∈ zipWalk excl source rel t →
      ∃ suf, e.2 = rel ++ suf ∧ suf ∈ copyTree excl t
  | .node files dirs, rel, e, h => by
    rw [zipWalk] at h
    rcases List.mem_append.1 h with hf | hd
    · rcases List.mem_map.1 hf with ⟨f, hfin, rfl⟩
      rcases List.mem_filter.1 hfin with ⟨hfmem, hfpred⟩
      refine ⟨[f], ?_, ?_⟩
      · show relpathSegs (source ++ rel ++ [f]) source = rel ++ [f]
        have hassoc : source ++ rel ++ [f] = source ++ (rel ++ [f]) := by simp
        rw [hassoc]
        exact relpathSegs_append source (rel ++ [f]) (by simp)
      · rw [copyTree]
        apply List.mem_append_left
        apply List.mem_map.2
        refine ⟨f, List.mem_filter.2 ⟨hfmem, ?_⟩, rfl⟩
        simp only [Bool.not_eq_true'] at hfpred ⊢
        by_contra hnm
        simp only [Bool.not_eq_false] at hnm
        have hpath := matchesAny_name_to_path excl hstar
          (absChars (source ++ rel) ++ ['/']) f hnm
        rw [← absChars_snoc] at hpath
        rw [hpath] at hfpred
        cases hfpred
    · rcases zipWalkDirs_subset_copy hstar dirs rel e hd with ⟨suf, h1, h2⟩
      refine ⟨suf, h1, ?_⟩
      rw [copyTree]
      exact List.mem_append_right _ h2
theorem zipWalkDirs_subset_copy {excl source : List String}
    (hstar : ∀ p ∈ excl, starLed p = true) :
    ∀ (ds : DirList) (rel : List String) (e : List String × List String),
      e ∈ zipWalkDirs excl source rel ds →
      ∃ suf, e.2 = rel ++ suf ∧ suf ∈ copyTreeDirs excl ds
  | .dnil, _, e, h => by
    rw [zipWalkDirs] at h
    simp at h
  | .dcons d t rest, rel, e, h => by
    rw [zipWalkDirs] at h
    rcases List.mem_append.1 h with hin | hrest
    · by_cases hm : matchesAny excl (absChars (source ++ rel ++ [d])) = true
      · rw [if_pos hm] at hin
        simp at hin
      · rw [if_neg hm] at hin
        rcases zipWalk_subset_copy hstar t (rel ++ [d]) e hin with ⟨suf, h1, h2⟩
        refine ⟨d :: suf, by rw [h1]; simp, ?_⟩
        rw [copyTreeDirs]
        apply List.mem_append_left
        have hdm : matchesAny excl d.data = false := by
          by_contra hdm
          simp only [Bool.not_eq_false] at hdm
          apply hm
          rw [absChars_snoc]
          exact matchesAny_name_to_path excl hstar _ d hdm
        rw [hdm]
        simp only [Bool.false_eq_true, if_false]
        exact List.mem_map.2 ⟨suf, h2, rfl⟩
    · rcases zipWalkDirs_subset_copy hstar rest rel e hrest with ⟨suf, h1, h2⟩
      refine ⟨suf, h1, ?_⟩
      rw [copyTreeDirs]
      exact List.mem_append_right _ h2
end

/-- C9 amended: the two backup modes do NOT honor the same exclusion
semantics in general (zip mode fnmatches full absolute paths, copy
mode fnmatches base names — see the counterexample); for exclusion
sets of star-led patterns such as `*.log`, zip mode excludes at least
as much: every archive entry also appears in the directory copy. -/
theorem C9_modes_star_patterns (excl : List String)
    (hstar : ∀ p ∈ excl, starLed p = true) (source : List String) (t : FSTree) :
    ∀ a ∈ backupZipManifest excl source t, a ∈ copyTree excl t := by
  intro a ha
  rcases List.mem_map.1 ha with ⟨e, he, rfl⟩
  rcases zipWalk_subset_copy hstar t [] e he with ⟨suf, h1, h2⟩
  rw [h1]
  simpa using h2

/-- C9 amended witness: the surviving entry `a.txt` of the example
backup also appears in the copy-mode result. -/
theorem C9_modes_star_patterns_witness :
    (["a.txt"] : List String) ∈ copyTree ["*.log"] exampleTree := by
  exact C9_modes_star_patterns ["*.log"] (by decide) ["src"] exampleTree
    ["a.txt"] (by decide)

/-! ### C6 / C7: the organizer -/

theorem pathStem_append_pathSuffix (name : String) :
    pathStem name ++ pathSuffix name = name := by
  apply String.ext
  rw [String.data_append]
  unfold pathStem pathSuffix
  simp only
  split
  next h1 =>
    split
    next h2 => simp [List.take_append_drop]
    next h2 => simp
  next h1 => simp

theorem lookupRule_mem : ∀ (rules : List (String × String)) (e d : String),
    lookupRule rules e = some d → (e, d) ∈ rules
  | [], _, _, h => by simp [lookupRule] at h
  | (e0, d0) :: rest, e, d, h => by
    rw [lookupRule] at h
    by_cases he : e0 = e
    · rw [if_pos he] at h
      injection h with h
      subst he
      subst h
      exact List.mem_cons_self _ _
    · rw [if_neg he] at h
      exact List.mem_cons_of_mem _ (lookupRule_mem rest e d h)

theorem singleton_ne_append {ds : List String} (h : ds ≠ []) (x m : String) :
    [m] ≠ ds ++ [x] := by
  intro heq
  have hlen := congrArg List.length heq
  rw [List.length_append] at hlen
  simp at hlen
  exact h hlen

theorem singleton_ne_ite_append {ds : List String} (h : ds ≠ []) (c : Prop) [Decidable c]
    (x y m : String) : [m] ≠ if c then ds ++ [x] else ds ++ [y] := by
  split
  · exact singleton_ne_append h x m
  · exact singleton_ne_append h y m

/-- Processing the worklist never leaves behind an immediate file whose
extension has a rule, provided every rule's destination is a real
subfolder: a ruled immediate file of the final state would have had to
be in the remaining worklist. -/
theorem organize_fold_inv (rules : List (String × String)) (ts : String)
    (hr : ∀ er ∈ rules, destSegsOf er.2 ≠ []) :
    ∀ (w : List (String × Nat)) (k : Nat) (s : OrgState),
      (∀ n c, ([n], c) ∈ s → lookupRule rules (extOf n) ≠ none →
        ∃ c2, (n, c2) ∈ w) →
      ∀ n c, ([n], c) ∈ (w.foldl (organizeStep rules ts) (k, s)).2 →
        lookupRule rules (extOf n) = none := by
  intro w
  induction w with
  | nil =>
    intro k s hinv n c hmem
    by_contra hrule
    rcases hinv n c hmem hrule with ⟨c2, hc2⟩
    exact absurd hc2 (List.not_mem_nil _)
  | cons a wrem ih =>
    intro k s hinv n c hmem
    rw [List.foldl_cons] at hmem
    rcases hstep : organizeStep rules ts (k, s) a with ⟨k2, s2⟩
    rw [hstep] at hmem
    refine ih k2 s2 ?_ n c hmem
    intro m cm hmmem hmrule
    rcases hlk : lookupRule rules (extOf a.1) with _ | destF
    · simp only [organizeStep, hlk] at hstep
      cases hstep
      rcases hinv m cm hmmem hmrule with ⟨c2, hc2⟩
      rcases List.mem_cons.1 hc2 with heq | hw
      · exfalso
        apply hmrule
        have ha1 : a.1 = m := by rw [← heq]
        rw [← ha1]
        exact hlk
      · exact ⟨c2, hw⟩
    · simp only [organizeStep, hlk] at hstep
      cases hstep
      rcases List.mem_append.1 hmmem with hmf | hml
      · rcases List.mem_filter.1 hmf with ⟨hmins, hpred⟩
        have hne : ([m] : List String) ≠ [a.1] := by
          simp only [Bool.not_eq_true', Bool.or_eq_false_iff,
            decide_eq_false_iff_not] at hpred
          exact hpred.1
        rcases hinv m cm hmins hmrule with ⟨c2, hc2⟩
        rcases List.mem_cons.1 hc2 with heq | hw
        · exfalso
          apply hne
          have ha1 : m = a.1 := by
            have := congrArg Prod.fst heq
            simpa using this
          rw [ha1]
        · exact ⟨c2, hw⟩
      · exfalso
        simp only [List.mem_singleton, Prod.mk.injEq] at hml
        have hfd : destSegsOf destF ≠ [] :=
          hr (extOf a.1, destF) (lookupRule_mem rules _ _ hlk)
        exact singleton_ne_ite_append hfd _ _ _ m hml.1

/-- After one organizer run whose rules all point into real subfolders,
no immediate file child of the directory has a ruled extension. -/
theorem organize_run_clears (rules : List (String × String)) (ts : String)
    (hr : ∀ er ∈ rules, destSegsOf er.2 ≠ []) (st : OrgState) :
    ∀ n c, ([n], c) ∈ (organize_run rules ts st).2 →
      lookupRule rules (extOf n) = none := by
  intro n c hmem
  refine organize_fold_inv rules ts hr (immediateFiles st) 0 st ?_ n c hmem
  intro m cm hmm _
  exact ⟨cm, List.mem_filterMap.2 ⟨([m], cm), hmm, rfl⟩⟩

/-- A run whose worklist contains no ruled extension moves nothing and
changes nothing. -/
theorem organize_run_unruled (rules : List (String × String)) (ts : String) (st : OrgState)
    (h : ∀ item ∈ immediateFiles st, lookupRule rules (extOf item.1) = none) :
    organize_run rules ts st = (0, st) := by
  rw [organize_run]
  have hgen : ∀ (w : List (String × Nat)) (acc : Nat × OrgState),
      (∀ item ∈ w, lookupRule rules (extOf item.1) = none) →
      w.foldl (organizeStep rules ts) acc = acc := by
    intro w
    induction w with
    | nil => intro acc _; rfl
    | cons a rest ih =>
      intro acc hall
      rw [List.foldl_cons]
      have hstep : organizeStep rules ts acc a = acc := by
        simp only [organizeStep, hall a (List.mem_cons_self a rest)]
      rw [hstep]
      exact ih acc (fun i hi => hall i (List.mem_cons_of_mem a hi))
  exact hgen _ _ h

/-- C7: running `organize_files` twice in succession is idempotent —
after the first run every file with a ruled extension has been moved
into its (genuine) destination subfolder, the run only enumerates
immediate file children, so the second run moves zero files and leaves
the state unchanged; in particular `report.pdf` is moved to
`Documents/PDFs/report.pdf` by the first run and a second run moves
nothing further. -/
theorem C7_organize_idempotent :
    (∀ (rules : List (String × String)) (ts ts2 : String) (st : OrgState),
      (∀ er ∈ rules, destSegsOf er.2 ≠ []) →
      (st.map Prod.fst).Nodup →
      organize_run rules ts2 (organize_run rules ts st).2 =
        (0, (organize_run rules ts st).2)) ∧
    organize_files (some [(["report.pdf"], 0)]) [] "20250101_120000" =
      (1, some [(["Documents", "PDFs", "report.pdf"], 0)]) ∧
    organize_files (some [(["Documents", "PDFs", "report.pdf"], 0)]) [] "20250102_120000" =
      (0, some [(["Documents", "PDFs", "report.pdf"], 0)]) := by
  refine ⟨?_, rfl, rfl⟩
  intro rules ts ts2 st hr _
  apply organize_run_unruled
  intro item hitem
  rcases List.mem_filterMap.1 hitem with ⟨⟨p, c⟩, hemem, hef⟩
  rcases p with _ | ⟨m, rest⟩
  · simp at hef
  · rcases rest with _ | ⟨m2, rest2⟩
    · simp only [Option.some.injEq] at hef
      rw [← hef]
      exact organize_run_clears rules ts hr st m c hemem
    · simp at hef

/-- C7 witness: the idempotence clause at the scenario input. -/
theorem C7_organize_idempotent_witness :
    organize_run default_rules "20250102_120000"
        (organize_run default_rules "20250101_120000" [(["report.pdf"], 0)]).2 =
      (0, (organize_run default_rules "20250101_120000" [(["report.pdf"], 0)]).2) := by
  exact C7_organize_idempotent.1 default_rules "20250101_120000" "20250102_120000"
    [(["report.pdf"], 0)] (by decide) (by simp)

/-- C6: when the destination already holds a file of the same name, the
organizer renames the moved file by inserting `_<timestamp>` before its
extension instead of overwriting: organizing the same file name in two
successive runs leaves the first run's file untouched at its
destination and stores the second under a distinct renamed path, both
recoverable. -/
theorem C6_organize_collision_safe (rules : List (String × String)) (ts1 ts2 : String)
    (n destF : String) (c1 c2 : Nat)
    (hrule : lookupRule rules (extOf n) = some destF)
    (hne : destSegsOf destF ≠ []) :
    organize_run rules ts1 [([n], c1)] = (1, [(destSegsOf destF ++ [n], c1)]) ∧
    organize_run rules ts2 [([n], c2), (destSegsOf destF ++ [n], c1)] =
      (1, [(destSegsOf destF ++ [n], c1),
           (destSegsOf destF ++ [pathStem n ++ "_" ++ ts2 ++ pathSuffix n], c2)]) ∧
    pathStem n ++ "_" ++ ts2 ++ pathSuffix n ≠ n := by
  have hd1 : ¬(([n] : List String) = destSegsOf destF ++ [n]) :=
    singleton_ne_append hne n n
  have hrn : pathStem n ++ "_" ++ ts2 ++ pathSuffix n ≠ n := by
    intro heq
    have hsum := congrArg String.length (pathStem_append_pathSuffix n)
    rw [String.length_append] at hsum
    have hlen := congrArg String.length heq
    rw [String.length_append, String.length_append, String.length_append] at hlen
    have hu : ("_" : String).length = 1 := rfl
    omega
  have hd2 : ¬((destSegsOf destF ++ [n] : List String) = [n]) := fun h => hd1 h.symm
  have hd3 : ¬((destSegsOf destF ++ [n] : List String) =
      destSegsOf destF ++ [pathStem n ++ "_" ++ ts2 ++ pathSuffix n]) := by
    intro heq
    have h2 := List.append_cancel_left heq
    simp only [List.cons.injEq, and_true] at h2
    exact hrn h2.symm
  have himm2 : immediateFiles [([n], c2), (destSegsOf destF ++ [n], c1)] = [(n, c2)] := by
    rcases hds : destSegsOf destF with _ | ⟨d0, ds'⟩
    · exact absurd hds hne
    · rcases hcons : ds' ++ [n] with _ | ⟨y, ys⟩
      · simp at hcons
      · show immediateFiles [([n], c2), (d0 :: (ds' ++ [n]), c1)] = [(n, c2)]
        rw [hcons]
        rfl
  refine ⟨?_, ?_, hrn⟩
  · simp [organize_run, immediateFiles, organizeStep, hrule, hd1]
  · rw [organize_run, himm2]
    simp [organizeStep, hrule, hd1, hd2, hd3]

/-- C6 witness: two successive runs with the default rule table both
place `report.pdf`, the second under the timestamp-renamed name. -/
theorem C6_organize_collision_safe_witness :
    organize_run default_rules "20250101_120000" [(["report.pdf"], 7)] =
      (1, [(["Documents", "PDFs", "report.pdf"], 7)]) ∧
    organize_run default_rules "20250202_130000"
        [(["report.pdf"], 8), (["Documents", "PDFs", "report.pdf"], 7)] =
      (1, [(["Documents", "PDFs", "report.pdf"], 7),
           (["Documents", "PDFs", "report_20250202_130000.pdf"], 8)]) ∧
    ("report_20250202_130000.pdf" : String) ≠ "report.pdf" := by
  have h := C6_organize_collision_safe default_rules "20250101_120000" "20250202_130000"
    "report.pdf" "Documents/PDFs" 7 8 (by rfl) (by decide)
  exact ⟨h.1, h.2.1, h.2.2⟩

/-! ### Smoke checks of the embedding -/

example : fnmatch "/src/b.log" "*.log" = true := rfl
example : fnmatch "/src/b.log" "b.log" = false := rfl
example : fnmatch "abc" "a[b-d]c" = true := rfl
example : fnmatch "aec" "a[!b-d]c" = true := rfl
example : fnmatch "/src/sub/c.txt" "*.log" = false := rfl
example : absChars ["src", "b.log"] = "/src/b.log".data := rfl
example : relpathSegs ["src", "sub", "c.txt"] ["src"] = ["sub", "c.txt"] := rfl
example : pathSuffix "report.pdf" = ".pdf" := rfl
example : pathStem "report.pdf" = "report" := rfl
example : extOf "report.PDF" = "pdf" := rfl
example : pathSuffix ".bashrc" = "" := rfl
example : destSegsOf "Documents/PDFs" = ["Documents", "PDFs"] := rfl

example :
    backupZipManifest ["*.log"] ["src"]
      (.node ["a.txt", "b.log"] (.dcons "sub" (.node ["c.txt"] .dnil) .dnil)) =
      [["a.txt"], ["sub", "c.txt"]] := rfl

example :
    copyTree ["*.log"] (.node ["a.txt", "b.log"] (.dcons "sub" (.node ["c.txt"] .dnil) .dnil)) =
      [["a.txt"], ["sub", "c.txt"]] := rfl

example :
    organize_run default_rules "20250101_120000" [(["report.pdf"], 7)] =
      (1, [(["Documents", "PDFs", "report.pdf"], 7)]) := rfl

end TaskAutomator
